import Mathlib

/-!
Shallow embedding of the editing engine in
`DataVisualizationEditingTool/utils/data_manager.py` (class `DataManager`).

Modelling conventions:
* The numpy table is a `List (List α)`: one inner list per row.  A freshly
  constructed empty table (`np.array([])`) and the canonical zero-row table
  (`reshape(0, total_cols)`) are both the empty list of rows, matching the
  fact that both have zero rows and `size == 0`.
* Machine floats are idealised as an arbitrary `LinearOrderedRing` `α`
  (instantiated at `ℤ` for concrete witnesses and at `ℝ` for the yaw claim);
  the engine itself performs no division.
* numpy element writes `a[i, j] = v` are fallible (`Option`): they fail
  exactly when the column index is out of range, which is how `add_point`
  dies on a width-0 row when the manager was constructed empty
  (`total_cols == 0`).  Column reads in contexts where the source assumes a
  rectangular table of width ≥ 1 are modelled with a default of `0`
  (`List.getD`); those reads are only reached on tables whose rows are wide
  enough, see the invariant theorems.
* Python `try/except` around each public operation: a failing (`none`)
  computation makes the operation return the state it had mutated so far
  (for the bodies below, all fallible steps happen before any assignment to
  `self.data`, except the renumbering inside `delete_points`, which is kept
  faithful to the statement order of the source).
* `int(...)` / `astype(int)` truncate toward zero: `npTrunc`.
* `np.argsort` (an unstable sort on the `index` column) is modelled by an
  insertion sort; tie order between duplicate keys is unspecified in the
  source.
* `self._auto_save_backup()` is the Durability Scheduler trigger; the model
  counts triggers in the `backups` field (the time-gated file write itself
  is out of scope).
* `print`-and-return paths and caught exceptions are both reported as a
  `false` success flag; history-pushing paths return `true`.
-/

set_option linter.unusedSectionVars false

variable {α : Type} [LinearOrderedRing α] [FloorRing α] [DecidableEq α]

/-- Read entry `j` of a row (`row[j]`); default `0` for the rectangular
tables the source manipulates. -/
def getCol (r : List α) (j : Nat) : α := r.getD j 0

/-- Fallible write `row[j] = v`: numpy raises `IndexError` when `j` is out
of range (in particular on a width-0 row). -/
def setCol? (r : List α) (j : Nat) (v : α) : Option (List α) :=
  if j < r.length then some (r.set j v) else none

/-- Fallible write `row[-1] = v` (last column). -/
def setLast? (r : List α) (v : α) : Option (List α) :=
  if r.length = 0 then none else some (r.set (r.length - 1) v)

/-- Read `row[-1]`, the `lane_id` column. -/
def laneOf (r : List α) : α := r.getD (r.length - 1) 0

/-- numpy `a.size`: total number of scalar entries. -/
def npSize (t : List (List α)) : Nat := (t.map List.length).sum

/-- Python `int(...)` / numpy `astype(int)`: truncation toward zero. -/
def npTrunc (x : α) : ℤ := if x < 0 then -⌊-x⌋ else ⌊x⌋

/-- State of a `DataManager` instance: the point table, the display-name
list, the construction-time column count, the undo history, the redo stack,
and a counter of Durability Scheduler triggers (`_auto_save_backup` calls). -/
structure DataManager (α : Type) where
  data : List (List α)
  file_names : List String
  total_cols : Nat
  history : List (List (List α))
  redo_stack : List (List (List α))
  backups : Nat
deriving DecidableEq

/-- Success epilogue shared by every mutating operation: install the new
table (and display names), append the post-mutation table to `history`,
empty the redo stack, and trigger the Durability Scheduler. -/
def commit (s : DataManager α) (d : List (List α)) (fns : List String) :
    DataManager α × Bool :=
  ({ s with
      data := d
      file_names := fns
      history := s.history ++ [d]
      redo_stack := []
      backups := s.backups + 1 }, true)

/-- Row coercion performed by `__init__` on a float-dtype table: columns 3
(`frame_idx`), 4 (`index`) and 5 (`lane_id`, i.e. `[:, -1]`) are truncated
to integers. -/
def coerceRow (r : List α) : List α :=
  ((r.set 3 ((npTrunc (getCol r 3) : ℤ) : α)).set 4
      ((npTrunc (getCol r 4) : ℤ) : α)).set 5 ((npTrunc (getCol r 5) : ℤ) : α)

/-- Constructor `DataManager.__init__`: an empty (`size == 0`) input yields the empty
table with `total_cols = 0` and history `[np.array([])]`; a non-empty input
must be 2-D with 6 columns, its integer columns are coerced, and
`frame_idx` must equal `index` columnwise, else construction raises
(`none`). -/
def mkDataManager (d : List (List α)) (fns : List String) :
    Option (DataManager α) :=
  if npSize d = 0 then some ⟨[], fns, 0, [[]], [], 0⟩
  else if ∀ r ∈ d, r.length = 6 then
    let d' := d.map coerceRow
    if ∀ r ∈ d', getCol r 3 = getCol r 4 then some ⟨d', fns, 6, [d'], [], 0⟩
    else none
  else none

/-- Append `np.vstack([t, r])` guarded by the source's `if self.data.size > 0`
branch: a size-0 table is replaced by the single new row; otherwise the
widths must agree or numpy raises. -/
def vstackRow? (t : List (List α)) (r : List α) : Option (List (List α)) :=
  if npSize t = 0 then some [r]
  else if ∀ q ∈ t, q.length = r.length then some (t ++ [r]) else none

/-- Operation `DataManager.add_point` (lines 36-51): build a zero row of width
`total_cols`, place `x`, `y`, `lane_id`, set `frame_idx = index = len(data)`
(the global row count), and append.  Any failure is caught and leaves the
state unchanged. -/
def add_point (x y : α) (lane_id : ℤ) (s : DataManager α) :
    DataManager α × Bool :=
  let row? : Option (List (List α)) := do
    let r0 := List.replicate s.total_cols (0 : α)
    let r1 ← setCol? r0 0 x
    let r2 ← setCol? r1 1 y
    let r3 ← setLast? r2 (lane_id : α)
    let r4 ← setCol? r3 3 (s.data.length : α)
    let r5 ← setCol? r4 4 (s.data.length : α)
    vstackRow? s.data r5
  match row? with
  | none => (s, false)
  | some d => commit s d s.file_names

/-- Boolean-mask removal `data[mask]` where `mask[indices] = False`: keep
the rows whose global position is not listed. -/
def dropListed : Nat → List (List α) → List ℤ → List (List α)
  | _, [], _ => []
  | j, r :: rest, idxs =>
    if (j : ℤ) ∈ idxs then dropListed (j + 1) rest idxs
    else r :: dropListed (j + 1) rest idxs

/-- Renumbering loop `data[:, 3] = arange; data[:, 4] = arange`, fallible
when a row is too narrow (numpy would raise on the column write). -/
def renumber? : Nat → List (List α) → Option (List (List α))
  | _, [] => some []
  | j, r :: rest =>
    match setCol? r 3 (j : α) with
    | none => none
    | some r1 =>
      match setCol? r1 4 (j : α) with
      | none => none
      | some r2 =>
        match renumber? (j + 1) rest with
        | none => none
        | some rest' => some (r2 :: rest')

/-- Operation `DataManager.delete_points` (lines 53-78): empty input is a silent
no-op; any position outside `[0, len(data))` rejects the whole call;
otherwise the listed rows are dropped, an empty remainder collapses to the
canonical zero-row table, and the survivors are renumbered by global
position.  The renumbering happens after `self.data` is reassigned, so a
(width-related) failure there keeps the filtered table without a history
push, exactly as the source's `except` branch would. -/
def delete_points (indices : List ℤ) (s : DataManager α) :
    DataManager α × Bool :=
  if indices = [] then (s, false)
  else if ∀ i ∈ indices, 0 ≤ i ∧ i < (s.data.length : ℤ) then
    let d1 := dropListed 0 s.data indices
    if npSize d1 = 0 then commit s [] s.file_names
    else
      match renumber? 0 d1 with
      | none => ({ s with data := d1 }, false)
      | some d2 => commit s d2 s.file_names
  else (s, false)

/-- Assignment loop of `data[indices, -1] = new_id` after numpy has
validated the (possibly wrapped) indices: set the last column of every
selected row. -/
def setLanes? : Nat → List (List α) → List ℤ → α → Option (List (List α))
  | _, [], _, _ => some []
  | j, r :: rest, eff, v =>
    match (if (j : ℤ) ∈ eff then setLast? r v else some r) with
    | none => none
    | some r' =>
      match setLanes? (j + 1) rest eff v with
      | none => none
      | some rest' => some (r' :: rest')

/-- Operation `DataManager.change_ids` (lines 80-90): empty input is a silent no-op.
numpy fancy-index assignment validates every position up front — positions
in `[-len, len)` are accepted, negative ones wrapping to `len + i`; any
other position raises before any element is written, and the caught
exception leaves the state unchanged. -/
def change_ids (indices : List ℤ) (new_id : ℤ) (s : DataManager α) :
    DataManager α × Bool :=
  if indices = [] then (s, false)
  else
    let n : ℤ := (s.data.length : ℤ)
    if ∀ i ∈ indices, -n ≤ i ∧ i < n then
      let eff := indices.map (fun i => if i < 0 then i + n else i)
      match setLanes? 0 s.data eff (new_id : α) with
      | none => (s, false)
      | some d => commit s d s.file_names
    else (s, false)

/-- Insertion step of the sort modelling `np.argsort` on the `index`
column (tie order between equal keys is unspecified in the source). -/
def insertRowBy {β : Type} (key : β → α) (b : β) : List β → List β
  | [] => [b]
  | c :: rest =>
    if key c ≤ key b then c :: insertRowBy key b rest else b :: c :: rest

/-- Sort modelling `np.argsort` (applied to rows, or to (position, row)
pairs where the permuted positions are needed). -/
def sortRowsBy {β : Type} (key : β → α) : List β → List β
  | [] => []
  | b :: rest => insertRowBy key b (sortRowsBy key rest)

/-- Global positions of the rows of lane `lv`: `np.where(data[:, -1] == lv)[0]`. -/
def lanePositions (t : List (List α)) (lv : α) : List Nat :=
  (List.range t.length).filter (fun j => decide (laneOf (t.getD j []) = lv))

/-- Operation `DataManager.remove_points_above` (lines 92-128): validate the clicked
global position and its lane tag, rank the lane's rows by `index`, find the
clicked row's local rank, and delete every lane row of strictly smaller
rank (delegating to `delete_points`, hence inheriting its no-op on an
empty removal list). -/
def remove_points_above (index lane_id : ℤ) (s : DataManager α) :
    DataManager α × Bool :=
  if index < 0 ∨ (s.data.length : ℤ) ≤ index ∨
      npTrunc (laneOf (s.data.getD index.toNat [])) ≠ lane_id then (s, false)
  else
    let lanePos := lanePositions s.data (lane_id : α)
    if lanePos = [] then (s, false)
    else
      let laneRows := lanePos.map (fun j => s.data.getD j [])
      let sortedPairs := sortRowsBy (fun p => getCol p.2 4) (lanePos.zip laneRows)
      let sortedGlobal := sortedPairs.map Prod.fst
      match List.findIdx? (fun j => decide ((j : ℤ) = index)) sortedGlobal with
      | none => (s, false)
      | some localIndex =>
        delete_points ((sortedGlobal.take localIndex).map (fun j => (j : ℤ))) s

/-- Operation `DataManager.remove_points_below` (lines 130-155): validate the global
position, and delete every row of the lane whose global position is
`>= index` (asymmetric with `remove_points_above` on purpose); an empty
removal list returns early. -/
def remove_points_below (index lane_id : ℤ) (s : DataManager α) :
    DataManager α × Bool :=
  if index < 0 ∨ (s.data.length : ℤ) ≤ index then (s, false)
  else
    let lanePos := lanePositions s.data (lane_id : α)
    if lanePos = [] then (s, false)
    else
      let toRemove := lanePos.filter (fun j => decide (index ≤ (j : ℤ)))
      if toRemove = [] then (s, false)
      else delete_points (toRemove.map (fun j => (j : ℤ))) s

/-- Yaw loop of `merge_lanes` (lines 197-200): every row but the last gets
`arctan2(dy, dx)` toward the next row; the neighbour's `x`/`y` are read
before that neighbour is itself rewritten, so recursing on the untouched
tail is faithful. -/
def yawPass (f : α → α → α) : List (List α) → Option (List (List α))
  | [] => some []
  | [r] => some [r]
  | r :: r2 :: rest =>
    match setCol? r 2 (f (getCol r2 1 - getCol r 1) (getCol r2 0 - getCol r 0)) with
    | none => none
    | some r' =>
      match yawPass f (r2 :: rest) with
      | none => none
      | some rest' => some (r' :: rest')

/-- Line 201: `merged[-1, 2] = merged[-2, 2] if N > 1 else 0.0` (the read
of `merged[-2, 2]` sees the value just recomputed by the loop). -/
def fixLastYaw (t : List (List α)) : Option (List (List α)) :=
  if t.length = 0 then none
  else
    match setCol? (t.getLastD []) 2
        (if t.length > 1 then getCol (t.getD (t.length - 2) []) 2 else 0) with
    | none => none
    | some lr => some (t.dropLast ++ [lr])

/-- Column assignment `merged[:, -1] = lane_id_1` (line 194). -/
def setLastAll? : List (List α) → α → Option (List (List α))
  | [], _ => some []
  | r :: rest, v =>
    match setLast? r v with
    | none => none
    | some r' =>
      match setLastAll? rest v with
      | none => none
      | some rest' => some (r' :: rest')

/-- Maximum of a list of integers (the list is non-empty at the call site,
since the merged table is non-empty). -/
def maxIntList (l : List ℤ) : ℤ := l.foldl max (l.headD 0)

/-- A lane as a row list sorted by the `index` column (source lines
168-174): the rows at the lane's global positions, sorted by column 4. -/
def laneSorted (t : List (List α)) (lv : α) : List (List α) :=
  sortRowsBy (fun r => getCol r 4) ((lanePositions t lv).map (fun j => t.getD j []))

/-- Orientation switch for lane 2 (source lines 184-191).  The source's
`if/elif` chain leaves `lane_2_part` unbound for any designation pair
outside the four listed ones, which raises `NameError` at the following
`vstack`: modelled as `none`. -/
def orientPiece (point_1_type point_2_type : String)
    (l2sorted : List (List α)) : Option (List (List α)) :=
  if point_2_type = "start" ∧ point_1_type = "end" then some l2sorted
  else if point_2_type = "end" ∧ point_1_type = "start" then some l2sorted
  else if point_2_type = "start" ∧ point_1_type = "start" then
    some l2sorted.reverse
  else if point_2_type = "end" ∧ point_1_type = "end" then
    some l2sorted.reverse
  else none

/-- Rows belonging to neither merged lane (source lines 207-208). -/
def otherLanes (t : List (List α)) (lv1 lv2 : α) : List (List α) :=
  t.filter (fun r => decide (¬ (laneOf r = lv1 ∨ laneOf r = lv2)))

/-- Reassembly of the full table (source line 209): merged segment first,
then the untouched rows — unless those have `size == 0`, in which case the
merged segment alone is kept. -/
def assembleData (finalMerged other : List (List α)) : List (List α) :=
  if npSize other > 0 then finalMerged ++ other else finalMerged

/-- Display-name resizing (source lines 211-212): indices up to the
maximum (truncated) lane id of the new table, existing names kept,
missing ones synthesized. -/
def resizeNames (fns : List String) (t : List (List α)) : List String :=
  (List.range ((maxIntList (t.map (fun r => npTrunc (laneOf r))) + 1).toNat)).map
    (fun i => fns.getD i ("Lane_" ++ toString i))

/-- Pure prelude of `merge_lanes` (lines 162-212): everything the source
computes into locals before the commit block.  `none` covers both the
guarded early returns (an empty lane) and every exception the source can
raise here: a representative position not found in its lane
(`np.where(...)[0][0]` raising `IndexError`) and an unrecognized
designation pair leaving `lane_2_part` unbound (`NameError` at `vstack`).
All of these happen before `self.data` is assigned. -/
def mergeCore (f : α → α → α) (lane_id_1 lane_id_2 point_1 point_2 : ℤ)
    (point_1_type point_2_type : String) (s : DataManager α) :
    Option (List (List α) × List String) :=
  if lanePositions s.data (lane_id_1 : α) = [] ∨
      lanePositions s.data (lane_id_2 : α) = [] then none
  else
    match List.findIdx? (fun j => decide ((j : ℤ) = point_1))
            (lanePositions s.data (lane_id_1 : α)),
          List.findIdx? (fun j => decide ((j : ℤ) = point_2))
            (lanePositions s.data (lane_id_2 : α)) with
    | some p1local, some _p2local =>
      match orientPiece point_1_type point_2_type
          (laneSorted s.data (lane_id_2 : α)) with
      | none => none
      | some lane2Piece =>
        match setLastAll?
            ((if point_1_type = "end" then
                (laneSorted s.data (lane_id_1 : α)).take (p1local + 1)
              else (laneSorted s.data (lane_id_1 : α)).drop p1local) ++
              lane2Piece) (lane_id_1 : α) with
        | none => none
        | some merged =>
          match yawPass f merged with
          | none => none
          | some yawed =>
            match fixLastYaw yawed with
            | none => none
            | some yawed2 =>
              match renumber? 0 yawed2 with
              | none => none
              | some finalMerged =>
                some (assembleData finalMerged
                    (otherLanes s.data (lane_id_1 : α) (lane_id_2 : α)),
                  resizeNames s.file_names (assembleData finalMerged
                    (otherLanes s.data (lane_id_1 : α) (lane_id_2 : α))))
    | _, _ => none

/-- Operation `DataManager.merge_lanes` (lines 157-218): empty table rejected; the
pure prelude either fails (caught, state unchanged) or yields the new
table and display names, which are committed. -/
def merge_lanes (f : α → α → α) (lane_id_1 lane_id_2 point_1 point_2 : ℤ)
    (point_1_type point_2_type : String) (s : DataManager α) :
    DataManager α × Bool :=
  if npSize s.data = 0 then (s, false)
  else
    match mergeCore f lane_id_1 lane_id_2 point_1 point_2 point_1_type
        point_2_type s with
    | none => (s, false)
    | some (d, fns) => commit s d fns

/-- Operation `DataManager.clear_data` (lines 246-255): reset the table, reset the
history to a fresh single-element empty baseline (it does not append),
empty the redo stack and the display names, and trigger the scheduler. -/
def clear_data (s : DataManager α) : DataManager α × Bool :=
  ({ s with
      data := []
      history := [([] : List (List α))]
      redo_stack := []
      file_names := []
      backups := s.backups + 1 }, true)

/-- Operation `DataManager.undo` (lines 257-268): with only the baseline snapshot,
report failure; otherwise pop the top of `history` onto the redo stack,
restore the new top, and trigger the scheduler.  The returned table is the
`data` field of the returned state. -/
def undo (s : DataManager α) : DataManager α × Bool :=
  if s.history.length ≤ 1 then (s, false)
  else
    let top := s.history.getLastD []
    let h' := s.history.dropLast
    ({ s with
        history := h'
        redo_stack := s.redo_stack ++ [top]
        data := h'.getLastD []
        backups := s.backups + 1 }, true)

/-- Operation `DataManager.redo` (lines 270-281): with an empty redo stack, report
failure; otherwise pop its top, make it the current table, and append it
to `history`. -/
def redo (s : DataManager α) : DataManager α × Bool :=
  if s.redo_stack = [] then (s, false)
  else
    let top := s.redo_stack.getLastD []
    ({ s with
        redo_stack := s.redo_stack.dropLast
        data := top
        history := s.history ++ [top]
        backups := s.backups + 1 }, true)

/-- The five kinds of mutating edit operations (the operations of §4.1-4.5
of the specification; `clear` is not among them). -/
inductive EditOp (α : Type) where
  | addPoint (x y : α) (lane_id : ℤ)
  | deletePoints (indices : List ℤ)
  | changeIds (indices : List ℤ) (new_id : ℤ)
  | removeAbove (index lane_id : ℤ)
  | removeBelow (index lane_id : ℤ)
  | mergeLanes (lane_id_1 lane_id_2 point_1 point_2 : ℤ)
      (point_1_type point_2_type : String)

/-- Dispatch an edit operation (`f` is the `arctan2` used by merges). -/
def applyEdit (f : α → α → α) : EditOp α → DataManager α → DataManager α × Bool
  | .addPoint x y l, s => add_point x y l s
  | .deletePoints idxs, s => delete_points idxs s
  | .changeIds idxs v, s => change_ids idxs v s
  | .removeAbove i l, s => remove_points_above i l s
  | .removeBelow i l, s => remove_points_below i l s
  | .mergeLanes l1 l2 p1 p2 t1 t2, s => merge_lanes f l1 l2 p1 p2 t1 t2 s

/-- The full state-mutating operation surface: the edit operations plus
`clear_data`, `undo` and `redo`. -/
inductive SurfOp (α : Type) where
  | edit (op : EditOp α)
  | clearOp
  | undoOp
  | redoOp

/-- Dispatch a surface operation. -/
def applySurf (f : α → α → α) : SurfOp α → DataManager α → DataManager α × Bool
  | .edit op, s => applyEdit f op s
  | .clearOp, s => clear_data s
  | .undoOp, s => undo s
  | .redoOp, s => redo s

/-- States reachable from `s0` through the operation surface. -/
inductive Reaches (f : α → α → α) (s0 : DataManager α) : DataManager α → Prop
  | start : Reaches f s0 s0
  | step {s : DataManager α} (op : SurfOp α) :
      Reaches f s0 s → Reaches f s0 (applySurf f op s).1

/-- numpy's `arctan2(y, x)` on exact reals. -/
noncomputable def arctan2 (y x : ℝ) : ℝ :=
  if 0 < x then Real.arctan (y / x)
  else if x < 0 then
    (if 0 ≤ y then Real.arctan (y / x) + Real.pi
     else Real.arctan (y / x) - Real.pi)
  else if 0 < y then Real.pi / 2
  else if y < 0 then -(Real.pi / 2)
  else 0

/-! ### Basic lemmas about the row-level primitives -/

theorem setCol?_eq_some {r r' : List α} {j : Nat} {v : α}
    (h : setCol? r j v = some r') : r' = r.set j v ∧ j < r.length := by
  unfold setCol? at h
  split at h
  · exact ⟨(Option.some.inj h).symm, by assumption⟩
  · cases h

theorem setLast?_eq_some {r r' : List α} {v : α}
    (h : setLast? r v = some r') : r' = r.set (r.length - 1) v ∧ r.length ≠ 0 := by
  unfold setLast? at h
  split at h
  · cases h
  · exact ⟨(Option.some.inj h).symm, by assumption⟩

theorem commit_snd (s : DataManager α) (d : List (List α)) (fns : List String) :
    (commit s d fns).2 = true := rfl

theorem add_point_eq_of_zero (x y : α) (lane_id : ℤ) (s : DataManager α)
    (h : s.total_cols = 0) : add_point x y lane_id s = (s, false) := by
  unfold add_point
  rw [h]
  rfl

/-! ### C7: what `clear_data` really does to the history -/

/-- State used to exhibit the behaviour of `clear_data`: a validly
constructed manager after one successful `add_point` (history already has
two snapshots). -/
def c7State : DataManager ℤ :=
  ⟨[[0, 0, 0, 0, 0, 1], [7, 8, 0, 1, 1, 1]], ["a"], 6,
    [[[0, 0, 0, 0, 0, 1]], [[0, 0, 0, 0, 0, 1], [7, 8, 0, 1, 1, 1]]], [], 1⟩

/-- Counterexample to C7: `clear_data` does not append the post-mutation
(empty) table to `history` — on a state whose history has two snapshots the
resulting history is the single-element baseline, not the prior history
extended by one element. -/
theorem clear_data_does_not_append_history :
    c7State = (add_point (7 : ℤ) 8 1
        ⟨[[0, 0, 0, 0, 0, 1]], ["a"], 6, [[[0, 0, 0, 0, 0, 1]]], [], 0⟩).1 ∧
    (clear_data c7State).1.history ≠
      c7State.history ++ [(clear_data c7State).1.data] := by
  constructor
  · decide
  · decide

/-- Amended C7: `clear_data` succeeds, resets the table to empty, resets
`history` to the single-element empty baseline (discarding the prior
history, as §3's lifecycle describes), empties the redo stack and the
display names, and triggers the Durability Scheduler. -/
theorem clear_data_resets_history (s : DataManager α) :
    (clear_data s).2 = true ∧
    (clear_data s).1.data = [] ∧
    (clear_data s).1.history = [([] : List (List α))] ∧
    (clear_data s).1.redo_stack = [] ∧
    (clear_data s).1.file_names = [] ∧
    (clear_data s).1.backups = s.backups + 1 := by
  refine ⟨rfl, rfl, rfl, rfl, rfl, rfl⟩

/-! ### C6: merge failures leave the state untouched -/

/-- Merge that fails for any reason (empty lane, representative position
not found in its lane, unrecognized end/start designation pair) leaves the
table, display names, history and redo stack exactly as they were: the
whole state is returned unchanged.  Every fallible step of the source
happens before `self.data`, `self.file_names`, `self.history` or
`self.redo_stack` is assigned. -/
theorem merge_lanes_failure_no_mutation (f : α → α → α)
    (lane_id_1 lane_id_2 point_1 point_2 : ℤ)
    (point_1_type point_2_type : String) (s : DataManager α)
    (h : (merge_lanes f lane_id_1 lane_id_2 point_1 point_2 point_1_type
        point_2_type s).2 = false) :
    (merge_lanes f lane_id_1 lane_id_2 point_1 point_2 point_1_type
        point_2_type s).1 = s := by
  revert h
  unfold merge_lanes
  split
  · intro _; rfl
  · split
    · intro _; rfl
    · intro h; cases h

/-- State used for the merge-failure witness: the two-lane table of §8's
merge example. -/
def c6State : DataManager ℤ :=
  ⟨[[0, 0, 0, 0, 0, 1], [1, 0, 0, 1, 1, 1], [2, 0, 0, 2, 2, 1],
      [2, 1, 0, 0, 0, 2], [2, 2, 0, 1, 1, 2]],
    ["l0", "l1", "l2"], 6,
    [[[0, 0, 0, 0, 0, 1], [1, 0, 0, 1, 1, 1], [2, 0, 0, 2, 2, 1],
        [2, 1, 0, 0, 0, 2], [2, 2, 0, 1, 1, 2]]], [], 0⟩

theorem merge_lanes_failure_no_mutation_witness :
    (merge_lanes (fun _ _ => (0 : ℤ)) 1 2 2 3 "end" "weird" c6State).2 = false ∧
    (merge_lanes (fun _ _ => (0 : ℤ)) 1 2 2 3 "end" "weird" c6State).1 = c6State :=
  ⟨by decide, merge_lanes_failure_no_mutation _ 1 2 2 3 "end" "weird" c6State (by decide)⟩

/-! ### C8: out-of-range positions in `change_ids` -/

/-- State used to exhibit `change_ids` on a negative position: a validly
constructed two-lane table. -/
def c8State : DataManager ℤ :=
  ⟨[[0, 0, 0, 0, 0, 1], [5, 5, 0, 1, 1, 2]], ["a", "b", "c"], 6,
    [[[0, 0, 0, 0, 0, 1], [5, 5, 0, 1, 1, 2]]], [], 0⟩

/-- Counterexample to C8: the position `-1` is outside `[0, row_count)`,
yet `change_ids [-1] 5` is not rejected — numpy wraps the negative index to
the last row, relabels it, and pushes a history snapshot. -/
theorem change_ids_negative_position_mutates :
    mkDataManager [[0, 0, 0, 0, 0, 1], [5, 5, 0, 1, 1, 2]] ["a", "b", "c"]
        = some c8State ∧
    (change_ids [-1] 5 c8State).2 = true ∧
    (change_ids [-1] 5 c8State).1.data =
      [[0, 0, 0, 0, 0, 1], [5, 5, 0, 1, 1, 5]] ∧
    (change_ids [-1] 5 c8State).1.history =
      c8State.history ++ [[[0, 0, 0, 0, 0, 1], [5, 5, 0, 1, 1, 5]]] := by
  refine ⟨by decide, by decide, by decide, by decide⟩

/-- Amended C8: a non-empty `change_ids` call is rejected before any
mutation exactly when some position falls outside `[-row_count, row_count)`
(numpy's fancy-index bounds); positions in `[-row_count, -1]` wrap to rows
counted from the end and are applied. -/
theorem change_ids_rejects_nonwrappable (indices : List ℤ) (new_id : ℤ)
    (s : DataManager α) (hne : indices ≠ [])
    (hbad : ∃ i ∈ indices,
      i < -(s.data.length : ℤ) ∨ (s.data.length : ℤ) ≤ i) :
    change_ids indices new_id s = (s, false) := by
  have hnot : ¬ ∀ i ∈ indices,
      -(s.data.length : ℤ) ≤ i ∧ i < (s.data.length : ℤ) := by
    obtain ⟨i, hi, hcase⟩ := hbad
    intro hall
    have := hall i hi
    omega
  unfold change_ids
  rw [if_neg hne]
  simp only []
  rw [if_neg hnot]

theorem change_ids_rejects_nonwrappable_witness :
    change_ids [7] 9 c8State = (c8State, false) :=
  change_ids_rejects_nonwrappable [7] 9 c8State (by decide)
    ⟨7, by decide, by decide⟩

/-! ### Success shape of the mutating operations

Every mutating edit operation that reports success went through the shared
`commit` epilogue: new table, history extended by the post-mutation table,
redo stack emptied, scheduler triggered. -/

theorem add_point_success_shape (x y : α) (lane_id : ℤ) (s : DataManager α)
    (h : (add_point x y lane_id s).2 = true) :
    ∃ d, add_point x y lane_id s = commit s d s.file_names := by
  revert h
  unfold add_point
  simp only []
  split
  · intro h; exact absurd h Bool.false_ne_true
  · intro _; exact ⟨_, rfl⟩

theorem delete_points_success_shape (indices : List ℤ) (s : DataManager α)
    (h : (delete_points indices s).2 = true) :
    ∃ d, delete_points indices s = commit s d s.file_names := by
  revert h
  unfold delete_points
  split
  · intro h; exact absurd h Bool.false_ne_true
  · split
    · simp only []
      split
      · intro _; exact ⟨[], rfl⟩
      · split
        · intro h; exact absurd h Bool.false_ne_true
        · intro _; exact ⟨_, rfl⟩
    · intro h; exact absurd h Bool.false_ne_true

theorem change_ids_success_shape (indices : List ℤ) (new_id : ℤ)
    (s : DataManager α) (h : (change_ids indices new_id s).2 = true) :
    ∃ d, change_ids indices new_id s = commit s d s.file_names := by
  revert h
  unfold change_ids
  split
  · intro h; exact absurd h Bool.false_ne_true
  · simp only []
    split
    · split
      · intro h; exact absurd h Bool.false_ne_true
      · intro _; exact ⟨_, rfl⟩
    · intro h; exact absurd h Bool.false_ne_true

theorem remove_points_above_success_shape (index lane_id : ℤ)
    (s : DataManager α) (h : (remove_points_above index lane_id s).2 = true) :
    ∃ d, remove_points_above index lane_id s = commit s d s.file_names := by
  revert h
  unfold remove_points_above
  split
  · intro h; exact absurd h Bool.false_ne_true
  · simp only []
    split
    · intro h; exact absurd h Bool.false_ne_true
    · split
      · intro h; exact absurd h Bool.false_ne_true
      · intro h; exact delete_points_success_shape _ _ h

theorem remove_points_below_success_shape (index lane_id : ℤ)
    (s : DataManager α) (h : (remove_points_below index lane_id s).2 = true) :
    ∃ d, remove_points_below index lane_id s = commit s d s.file_names := by
  revert h
  unfold remove_points_below
  split
  · intro h; exact absurd h Bool.false_ne_true
  · simp only []
    split
    · intro h; exact absurd h Bool.false_ne_true
    · split
      · intro h; exact absurd h Bool.false_ne_true
      · intro h; exact delete_points_success_shape _ _ h

theorem merge_lanes_success_shape (f : α → α → α)
    (lane_id_1 lane_id_2 point_1 point_2 : ℤ)
    (point_1_type point_2_type : String) (s : DataManager α)
    (h : (merge_lanes f lane_id_1 lane_id_2 point_1 point_2 point_1_type
        point_2_type s).2 = true) :
    ∃ d fns, merge_lanes f lane_id_1 lane_id_2 point_1 point_2 point_1_type
        point_2_type s = commit s d fns := by
  revert h
  unfold merge_lanes
  split
  · intro h; exact absurd h Bool.false_ne_true
  · split
    · intro h; exact absurd h Bool.false_ne_true
    · intro _; exact ⟨_, _, rfl⟩

theorem applyEdit_success_shape (f : α → α → α) (op : EditOp α)
    (s : DataManager α) (h : (applyEdit f op s).2 = true) :
    ∃ d fns, applyEdit f op s = commit s d fns := by
  cases op with
  | addPoint x y l =>
    obtain ⟨d, hd⟩ := add_point_success_shape x y l s h
    exact ⟨d, s.file_names, hd⟩
  | deletePoints idxs =>
    obtain ⟨d, hd⟩ := delete_points_success_shape idxs s h
    exact ⟨d, s.file_names, hd⟩
  | changeIds idxs v =>
    obtain ⟨d, hd⟩ := change_ids_success_shape idxs v s h
    exact ⟨d, s.file_names, hd⟩
  | removeAbove i l =>
    obtain ⟨d, hd⟩ := remove_points_above_success_shape i l s h
    exact ⟨d, s.file_names, hd⟩
  | removeBelow i l =>
    obtain ⟨d, hd⟩ := remove_points_below_success_shape i l s h
    exact ⟨d, s.file_names, hd⟩
  | mergeLanes l1 l2 p1 p2 t1 t2 =>
    exact merge_lanes_success_shape f l1 l2 p1 p2 t1 t2 s h

/-! ### C1: undo/redo round trip after a successful mutation -/

/-- C1: from any state satisfying the construction invariant that the top
of `history` is the current table, a successful mutating operation
(add-point, delete-points, change-ids, either truncation, or merge)
followed by `undo` restores exactly the pre-operation table (success flag
true; the table returned by the source's `undo` is the `data` field of the
resulting state), and `redo` right after that `undo` restores exactly the
post-mutation table (success flag true). -/
theorem undo_redo_round_trip (f : α → α → α) (op : EditOp α)
    (s : DataManager α) (hlast : s.history.getLast? = some s.data)
    (hs : (applyEdit f op s).2 = true) :
    (undo (applyEdit f op s).1).2 = true ∧
    (undo (applyEdit f op s).1).1.data = s.data ∧
    (redo (undo (applyEdit f op s).1).1).2 = true ∧
    (redo (undo (applyEdit f op s).1).1).1.data = (applyEdit f op s).1.data := by
  obtain ⟨d, fns, he⟩ := applyEdit_success_shape f op s hs
  rw [he]
  have hne : s.history ≠ [] := by
    intro h0
    rw [h0] at hlast
    cases hlast
  have hpos : 0 < s.history.length := List.length_pos.mpr hne
  have hlen : ¬ ((commit s d fns).1.history.length ≤ 1) := by
    simp only [commit, List.length_append, List.length_cons, List.length_nil]
    omega
  have hlastD : s.history.getLastD [] = s.data := by
    rw [List.getLastD_eq_getLast?, hlast]
    rfl
  unfold undo redo
  rw [if_neg hlen]
  simp [commit, List.dropLast_concat, List.getLastD_concat, hlastD, hlast]

/-- State used for the round-trip witness: a validly constructed one-row
manager. -/
def c1State : DataManager ℤ :=
  ⟨[[0, 0, 0, 0, 0, 1]], ["a"], 6, [[[0, 0, 0, 0, 0, 1]]], [], 0⟩

theorem undo_redo_round_trip_witness :
    (undo (applyEdit (fun _ _ => (0 : ℤ)) (.addPoint 7 8 1) c1State).1).2 = true ∧
    (undo (applyEdit (fun _ _ => (0 : ℤ)) (.addPoint 7 8 1) c1State).1).1.data
      = c1State.data ∧
    (redo (undo (applyEdit (fun _ _ => (0 : ℤ)) (.addPoint 7 8 1) c1State).1).1).2
      = true ∧
    (redo (undo (applyEdit (fun _ _ => (0 : ℤ)) (.addPoint 7 8 1) c1State).1).1).1.data
      = (applyEdit (fun _ _ => (0 : ℤ)) (.addPoint 7 8 1) c1State).1.data :=
  undo_redo_round_trip (fun _ _ => (0 : ℤ)) (.addPoint 7 8 1) c1State
    (by decide) (by decide)

/-! ### List-level helper lemmas -/

theorem getCol_set_self {r : List α} {j : Nat} (h : j < r.length) (v : α) :
    getCol (r.set j v) j = v := by
  simp [getCol, List.getD, List.getElem?_set_self, h]

theorem getCol_set_ne {r : List α} {j k : Nat} (h : j ≠ k) (v : α) :
    getCol (r.set j v) k = getCol r k := by
  simp [getCol, List.getD, List.getElem?_set_ne h]

theorem getLastD_mem {β : Type} (l : List β) (b : β) (h : l ≠ []) :
    l.getLastD b ∈ l := by
  have h2 : l.getLastD b = l.getLast h := by
    rw [List.getLastD_eq_getLast?, List.getLast?_eq_getLast _ h]
    rfl
  rw [h2]
  exact List.getLast_mem h

theorem getLastD_eq_of_all {β : Type} (l : List β) (b : β)
    (h : ∀ t ∈ l, t = b) : l.getLastD b = b := by
  by_cases hl : l = []
  · rw [hl]; rfl
  · exact h _ (getLastD_mem l b hl)

theorem getD_mem_of_lt {t : List (List α)} {j : Nat} (h : j < t.length) :
    t.getD j [] ∈ t := by
  rw [List.getD_eq_getElem _ _ h]
  exact List.getElem_mem h

theorem lanePositions_mem {t : List (List α)} {lv : α} {j : Nat}
    (h : j ∈ lanePositions t lv) :
    j < t.length ∧ laneOf (t.getD j []) = lv := by
  unfold lanePositions at h
  have h1 := List.mem_filter.mp h
  exact ⟨List.mem_range.mp h1.1, of_decide_eq_true h1.2⟩

theorem insertRowBy_perm {β : Type} (key : β → α) (b : β) (l : List β) :
    (insertRowBy key b l).Perm (b :: l) := by
  induction l with
  | nil => exact List.Perm.refl _
  | cons c rest ih =>
    unfold insertRowBy
    split
    · exact (ih.cons c).trans (List.Perm.swap b c rest)
    · exact List.Perm.refl _

theorem sortRowsBy_perm {β : Type} (key : β → α) (l : List β) :
    (sortRowsBy key l).Perm l := by
  induction l with
  | nil => exact List.Perm.refl _
  | cons b rest ih =>
    unfold sortRowsBy
    exact (insertRowBy_perm key b _).trans (ih.cons b)

theorem sortRowsBy_mem {β : Type} {key : β → α} {l : List β} {a : β}
    (h : a ∈ sortRowsBy key l) : a ∈ l :=
  (sortRowsBy_perm key l).mem_iff.mp h

theorem dropListed_mem {t : List (List α)} :
    ∀ {j : Nat} {idxs : List ℤ} {r : List α}, r ∈ dropListed j t idxs → r ∈ t := by
  induction t with
  | nil => intro j idxs r h; cases h
  | cons a rest ih =>
    intro j idxs r h
    unfold dropListed at h
    split at h
    · exact List.mem_cons_of_mem a (ih h)
    · rcases List.mem_cons.mp h with h1 | h1
      · exact h1 ▸ List.mem_cons_self a rest
      · exact List.mem_cons_of_mem a (ih h1)

/-! ### Shape lemmas for the merge pipeline stages -/

theorem setLastAll?_cons_eq_some {r : List α} {rest t' : List (List α)} {v : α}
    (h : setLastAll? (r :: rest) v = some t') :
    ∃ r' rest', setLast? r v = some r' ∧ setLastAll? rest v = some rest' ∧
      t' = r' :: rest' := by
  unfold setLastAll? at h
  split at h
  · cases h
  · split at h
    · cases h
    · exact ⟨_, _, by assumption, by assumption, (Option.some.inj h).symm⟩

theorem yawPass_cons2_eq_some {f : α → α → α} {r r2 : List α}
    {rest t' : List (List α)}
    (h : yawPass f (r :: r2 :: rest) = some t') :
    ∃ r' rest',
      setCol? r 2 (f (getCol r2 1 - getCol r 1) (getCol r2 0 - getCol r 0))
        = some r' ∧
      yawPass f (r2 :: rest) = some rest' ∧ t' = r' :: rest' := by
  unfold yawPass at h
  split at h
  · cases h
  · split at h
    · cases h
    · exact ⟨_, _, by assumption, by assumption, (Option.some.inj h).symm⟩

theorem renumber?_cons_eq_some {r : List α} {rest t' : List (List α)} {j : Nat}
    (h : renumber? j (r :: rest) = some t') :
    ∃ r1 r2 rest', setCol? r 3 ((j : ℕ) : α) = some r1 ∧
      setCol? r1 4 ((j : ℕ) : α) = some r2 ∧
      renumber? (j + 1) rest = some rest' ∧ t' = r2 :: rest' := by
  unfold renumber? at h
  split at h
  · cases h
  · split at h
    · cases h
    · split at h
      · cases h
      · exact ⟨_, _, _, by assumption, by assumption, by assumption,
          (Option.some.inj h).symm⟩

theorem setLanes?_cons_eq_some {r : List α} {rest t' : List (List α)}
    {eff : List ℤ} {v : α} {j : Nat}
    (h : setLanes? j (r :: rest) eff v = some t') :
    ∃ r' rest', (if (j : ℤ) ∈ eff then setLast? r v else some r) = some r' ∧
      setLanes? (j + 1) rest eff v = some rest' ∧ t' = r' :: rest' := by
  unfold setLanes? at h
  split at h
  · cases h
  · split at h
    · cases h
    · exact ⟨_, _, by assumption, by assumption, (Option.some.inj h).symm⟩

theorem setLastAll?_len6 {t t' : List (List α)} {v : α}
    (hw : ∀ r ∈ t, r.length = 6) (h : setLastAll? t v = some t') :
    ∀ r' ∈ t', r'.length = 6 := by
  induction t generalizing t' with
  | nil =>
    unfold setLastAll? at h
    cases h
    intro r' hr'
    cases hr'
  | cons r rest ih =>
    obtain ⟨r1, rest', h1, h2, h3⟩ := setLastAll?_cons_eq_some h
    obtain ⟨hr1, -⟩ := setLast?_eq_some h1
    intro r' hr'
    rw [h3] at hr'
    rcases List.mem_cons.mp hr' with h4 | h4
    · rw [h4, hr1, List.length_set]
      exact hw r (List.mem_cons_self _ _)
    · exact ih (fun q hq => hw q (List.mem_cons_of_mem _ hq)) h2 r' h4

theorem yawPass_len6 {f : α → α → α} {t t' : List (List α)}
    (hw : ∀ r ∈ t, r.length = 6) (h : yawPass f t = some t') :
    ∀ r' ∈ t', r'.length = 6 := by
  induction t generalizing t' with
  | nil =>
    unfold yawPass at h
    cases h
    intro r' hr'
    cases hr'
  | cons r rest ih =>
    cases rest with
    | nil =>
      unfold yawPass at h
      cases h
      intro r' hr'
      rcases List.mem_cons.mp hr' with h4 | h4
      · exact h4 ▸ hw r (List.mem_cons_self _ _)
      · cases h4
    | cons r2 rest2 =>
      obtain ⟨r1, rest', h1, h2, h3⟩ := yawPass_cons2_eq_some h
      obtain ⟨hr1, -⟩ := setCol?_eq_some h1
      intro r' hr'
      rw [h3] at hr'
      rcases List.mem_cons.mp hr' with h4 | h4
      · rw [h4, hr1, List.length_set]
        exact hw r (List.mem_cons_self _ _)
      · exact ih (fun q hq => hw q (List.mem_cons_of_mem _ hq)) h2 r' h4

theorem fixLastYaw_len6 {t t' : List (List α)}
    (hw : ∀ r ∈ t, r.length = 6) (h : fixLastYaw t = some t') :
    ∀ r' ∈ t', r'.length = 6 := by
  unfold fixLastYaw at h
  split at h
  · cases h
  · rename_i hne
    split at h
    · cases h
    · rename_i lr hlr
      obtain ⟨hlr1, -⟩ := setCol?_eq_some hlr
      cases h
      intro r' hr'
      rcases List.mem_append.mp hr' with h4 | h4
      · exact hw r' ((List.dropLast_sublist t).mem h4)
      · rcases List.mem_singleton.mp h4 with h5
        rw [h5, hlr1, List.length_set]
        exact hw _ (getLastD_mem t []
          (by intro h0; rw [h0] at hne; exact hne rfl))

theorem renumber?_shape {t t' : List (List α)} :
    ∀ {j : Nat}, renumber? j t = some t' →
    ∀ r' ∈ t', (∃ r ∈ t, r'.length = r.length) ∧ getCol r' 3 = getCol r' 4 := by
  induction t generalizing t' with
  | nil =>
    intro j h
    unfold renumber? at h
    cases h
    intro r' hr'
    cases hr'
  | cons r rest ih =>
    intro j h
    obtain ⟨r1, r2, rest', h1, h2, h3, h4⟩ := renumber?_cons_eq_some h
    obtain ⟨hr1, hl1⟩ := setCol?_eq_some h1
    obtain ⟨hr2, hl2⟩ := setCol?_eq_some h2
    intro r' hr'
    rw [h4] at hr'
    rcases List.mem_cons.mp hr' with h5 | h5
    · subst h5
      constructor
      · exact ⟨r, List.mem_cons_self _ _, by rw [hr2, hr1]; simp⟩
      · rw [hr2, hr1]
        rw [hr1] at hl2
        rw [List.length_set] at hl2
        have hl2' : 4 < (r.set 3 ((j : ℕ) : α)).length := by
          rw [List.length_set]
          exact hl2
        rw [getCol_set_self hl2' _, getCol_set_ne (by omega) _,
          getCol_set_self hl1 _]
    · obtain ⟨⟨q, hq, hlen⟩, hcols⟩ := ih h3 r' h5
      exact ⟨⟨q, List.mem_cons_of_mem _ hq, hlen⟩, hcols⟩

/-! ### Structural invariants of reachable states -/

/-- Rows of a well-formed table: width 6 and `frame_idx == index`. -/
def TableOK (t : List (List α)) : Prop :=
  ∀ r ∈ t, r.length = 6 ∧ getCol r 3 = getCol r 4

/-- Pool of an engine constructed empty: every table anywhere is empty. -/
def AllEmptyPool (s : DataManager α) : Prop :=
  s.data = [] ∧ (∀ t ∈ s.history, t = []) ∧ ∀ t ∈ s.redo_stack, t = []

/-- Invariant preserved by the whole operation surface: either a 6-column
engine whose current table and every snapshot satisfy `TableOK`, or an
engine constructed empty (`total_cols = 0`) whose pool is entirely empty. -/
def StateInv (s : DataManager α) : Prop :=
  (s.total_cols = 6 ∧ TableOK s.data ∧ (∀ t ∈ s.history, TableOK t) ∧
    ∀ t ∈ s.redo_stack, TableOK t) ∨
  (s.total_cols = 0 ∧ AllEmptyPool s)

/-! ### Operations on a rowless table are rejected -/

theorem delete_points_eq_of_nil (indices : List ℤ) (s : DataManager α)
    (h : s.data = []) : delete_points indices s = (s, false) := by
  unfold delete_points
  split
  · rfl
  · rename_i hne
    split
    · rename_i hall
      exfalso
      obtain ⟨i, hi⟩ := List.exists_mem_of_ne_nil _ hne
      have h2 := hall i hi
      rw [h] at h2
      simp at h2
      omega
    · rfl

theorem change_ids_eq_of_nil (indices : List ℤ) (new_id : ℤ)
    (s : DataManager α) (h : s.data = []) :
    change_ids indices new_id s = (s, false) := by
  unfold change_ids
  split
  · rfl
  · rename_i hne
    simp only []
    split
    · rename_i hall
      exfalso
      obtain ⟨i, hi⟩ := List.exists_mem_of_ne_nil _ hne
      have h2 := hall i hi
      rw [h] at h2
      simp at h2
      omega
    · rfl

theorem remove_points_above_eq_of_nil (index lane_id : ℤ) (s : DataManager α)
    (h : s.data = []) : remove_points_above index lane_id s = (s, false) := by
  unfold remove_points_above
  rw [if_pos]
  rcases le_or_lt 0 index with h1 | h1
  · exact Or.inr (Or.inl (by rw [h]; simpa using h1))
  · exact Or.inl h1

theorem remove_points_below_eq_of_nil (index lane_id : ℤ) (s : DataManager α)
    (h : s.data = []) : remove_points_below index lane_id s = (s, false) := by
  unfold remove_points_below
  rw [if_pos]
  rcases le_or_lt 0 index with h1 | h1
  · exact Or.inr (by rw [h]; simpa using h1)
  · exact Or.inl h1

theorem merge_lanes_eq_of_nil (f : α → α → α)
    (lane_id_1 lane_id_2 point_1 point_2 : ℤ)
    (point_1_type point_2_type : String) (s : DataManager α)
    (h : s.data = []) :
    merge_lanes f lane_id_1 lane_id_2 point_1 point_2 point_1_type
      point_2_type s = (s, false) := by
  unfold merge_lanes
  rw [if_pos (by rw [h]; rfl)]

/-! ### `total_cols` is fixed at construction and never reassigned -/

theorem add_point_total_cols (x y : α) (lane_id : ℤ) (s : DataManager α) :
    (add_point x y lane_id s).1.total_cols = s.total_cols := by
  unfold add_point
  simp only []
  split
  · rfl
  · rfl

theorem delete_points_total_cols (indices : List ℤ) (s : DataManager α) :
    (delete_points indices s).1.total_cols = s.total_cols := by
  unfold delete_points
  split
  · rfl
  · split
    · simp only []
      split
      · rfl
      · split
        · rfl
        · rfl
    · rfl

theorem change_ids_total_cols (indices : List ℤ) (new_id : ℤ)
    (s : DataManager α) :
    (change_ids indices new_id s).1.total_cols = s.total_cols := by
  unfold change_ids
  split
  · rfl
  · simp only []
    split
    · split
      · rfl
      · rfl
    · rfl

theorem remove_points_above_total_cols (index lane_id : ℤ)
    (s : DataManager α) :
    (remove_points_above index lane_id s).1.total_cols = s.total_cols := by
  unfold remove_points_above
  split
  · rfl
  · simp only []
    split
    · rfl
    · split
      · rfl
      · exact delete_points_total_cols _ _

theorem remove_points_below_total_cols (index lane_id : ℤ)
    (s : DataManager α) :
    (remove_points_below index lane_id s).1.total_cols = s.total_cols := by
  unfold remove_points_below
  split
  · rfl
  · simp only []
    split
    · rfl
    · split
      · rfl
      · exact delete_points_total_cols _ _

theorem merge_lanes_total_cols (f : α → α → α)
    (lane_id_1 lane_id_2 point_1 point_2 : ℤ)
    (point_1_type point_2_type : String) (s : DataManager α) :
    (merge_lanes f lane_id_1 lane_id_2 point_1 point_2 point_1_type
      point_2_type s).1.total_cols = s.total_cols := by
  unfold merge_lanes
  split
  · rfl
  · split
    · rfl
    · rfl

theorem applySurf_total_cols (f : α → α → α) (op : SurfOp α)
    (s : DataManager α) : (applySurf f op s).1.total_cols = s.total_cols := by
  cases op with
  | edit op =>
    cases op with
    | addPoint x y l => exact add_point_total_cols x y l s
    | deletePoints idxs => exact delete_points_total_cols idxs s
    | changeIds idxs v => exact change_ids_total_cols idxs v s
    | removeAbove i l => exact remove_points_above_total_cols i l s
    | removeBelow i l => exact remove_points_below_total_cols i l s
    | mergeLanes l1 l2 p1 p2 t1 t2 =>
      exact merge_lanes_total_cols f l1 l2 p1 p2 t1 t2 s
  | clearOp => rfl
  | undoOp =>
    simp only [applySurf]
    unfold undo
    split
    · rfl
    · rfl
  | redoOp =>
    simp only [applySurf]
    unfold redo
    split
    · rfl
    · rfl

theorem reaches_total_cols {f : α → α → α} {s0 s : DataManager α}
    (hr : Reaches f s0 s) : s.total_cols = s0.total_cols := by
  induction hr with
  | start => rfl
  | step op _ ih => rw [applySurf_total_cols]; exact ih

/-! ### Preservation of the invariant by each operation -/

theorem lanePositions_rows_mem {t : List (List α)} {lv : α} {r : List α}
    (h : r ∈ (lanePositions t lv).map (fun j => t.getD j [])) : r ∈ t := by
  obtain ⟨j, hj, hr⟩ := List.mem_map.mp h
  exact hr ▸ getD_mem_of_lt (lanePositions_mem hj).1

theorem setLanes?_TableOK {t t' : List (List α)} {eff : List ℤ} {v : α} :
    ∀ {j : Nat}, TableOK t → setLanes? j t eff v = some t' → TableOK t' := by
  induction t generalizing t' with
  | nil =>
    intro j _ h
    unfold setLanes? at h
    cases h
    intro r' hr'
    cases hr'
  | cons r rest ih =>
    intro j hw h
    obtain ⟨r1, rest', h1, h2, h3⟩ := setLanes?_cons_eq_some h
    obtain ⟨hlen, hcols⟩ := hw r (List.mem_cons_self _ _)
    intro r' hr'
    rw [h3] at hr'
    rcases List.mem_cons.mp hr' with h4 | h4
    · subst h4
      by_cases hj : ((j : ℕ) : ℤ) ∈ eff
      · rw [if_pos hj] at h1
        obtain ⟨hr1, -⟩ := setLast?_eq_some h1
        subst hr1
        refine ⟨by rw [List.length_set]; exact hlen, ?_⟩
        rw [hlen]
        rw [getCol_set_ne (by omega) _, getCol_set_ne (by omega) _]
        exact hcols
      · rw [if_neg hj] at h1
        cases h1
        exact ⟨hlen, hcols⟩
    · exact ih (fun q hq => hw q (List.mem_cons_of_mem _ hq)) h2 r' h4

theorem add_point_eq_of_six (x y : α) (lane_id : ℤ) (s : DataManager α)
    (h : s.total_cols = 6) :
    add_point x y lane_id s =
      match vstackRow? s.data
          [x, y, 0, (s.data.length : α), (s.data.length : α), (lane_id : α)] with
      | none => (s, false)
      | some d => commit s d s.file_names := by
  unfold add_point
  rw [h]
  rfl

theorem StateInv_commit {s : DataManager α} {d : List (List α)}
    {fns : List String} (h : StateInv s) (h6 : s.total_cols = 6)
    (hd : TableOK d) : StateInv (commit s d fns).1 := by
  rcases h with ⟨-, hdata, hhist, hredo⟩ | ⟨h0, -⟩
  · left
    refine ⟨h6, hd, ?_, ?_⟩
    · intro t ht
      rcases List.mem_append.mp ht with h1 | h1
      · exact hhist t h1
      · rw [List.mem_singleton.mp h1]
        exact hd
    · intro t ht
      cases ht
  · rw [h0] at h6
    cases h6

theorem StateInv_add (x y : α) (lane_id : ℤ) (s : DataManager α)
    (h : StateInv s) : StateInv (add_point x y lane_id s).1 := by
  have h6or := h
  rcases h6or with ⟨h6, hdata, -, -⟩ | ⟨h0, hpool⟩
  · rw [add_point_eq_of_six x y lane_id s h6]
    split
    · exact h
    · rename_i d hv
      refine StateInv_commit h h6 ?_
      unfold vstackRow? at hv
      split at hv
      · cases hv
        intro r hr
        rw [List.mem_singleton.mp hr]
        exact ⟨rfl, rfl⟩
      · split at hv
        · cases hv
          intro r hr
          rcases List.mem_append.mp hr with h1 | h1
          · exact hdata r h1
          · rw [List.mem_singleton.mp h1]
            exact ⟨rfl, rfl⟩
        · cases hv
  · rw [add_point_eq_of_zero x y lane_id s h0]
    exact h

theorem StateInv_delete (indices : List ℤ) (s : DataManager α)
    (h : StateInv s) : StateInv (delete_points indices s).1 := by
  have h6or := h
  rcases h6or with ⟨h6, hdata, hhist, hredo⟩ | ⟨h0, hpool⟩
  · unfold delete_points
    split
    · exact h
    · split
      · simp only []
        split
        · exact StateInv_commit h h6 (fun r hr => by cases hr)
        · split
          · left
            exact ⟨h6, fun r hr => hdata r (dropListed_mem hr), hhist, hredo⟩
          · rename_i d2 hren
            refine StateInv_commit h h6 ?_
            intro r' hr'
            obtain ⟨⟨r, hrmem, hlen⟩, hcols⟩ := renumber?_shape hren r' hr'
            exact ⟨by rw [hlen]; exact (hdata r (dropListed_mem hrmem)).1, hcols⟩
      · exact h
  · rw [delete_points_eq_of_nil indices s hpool.1]
    exact h

theorem StateInv_change (indices : List ℤ) (new_id : ℤ) (s : DataManager α)
    (h : StateInv s) : StateInv (change_ids indices new_id s).1 := by
  have h6or := h
  rcases h6or with ⟨h6, hdata, hhist, hredo⟩ | ⟨h0, hpool⟩
  · unfold change_ids
    split
    · exact h
    · simp only []
      split
      · split
        · exact h
        · rename_i d hset
          exact StateInv_commit h h6 (setLanes?_TableOK hdata hset)
      · exact h
  · rw [change_ids_eq_of_nil indices new_id s hpool.1]
    exact h

theorem StateInv_above (index lane_id : ℤ) (s : DataManager α)
    (h : StateInv s) : StateInv (remove_points_above index lane_id s).1 := by
  unfold remove_points_above
  split
  · exact h
  · simp only []
    split
    · exact h
    · split
      · exact h
      · exact StateInv_delete _ s h

theorem StateInv_below (index lane_id : ℤ) (s : DataManager α)
    (h : StateInv s) : StateInv (remove_points_below index lane_id s).1 := by
  unfold remove_points_below
  split
  · exact h
  · simp only []
    split
    · exact h
    · split
      · exact h
      · exact StateInv_delete _ s h

theorem laneSorted_mem {t : List (List α)} {lv : α} {r : List α}
    (h : r ∈ laneSorted t lv) : r ∈ t :=
  lanePositions_rows_mem (sortRowsBy_mem h)

theorem mergeCore_TableOK {f : α → α → α}
    {lane_id_1 lane_id_2 point_1 point_2 : ℤ}
    {point_1_type point_2_type : String} {s : DataManager α}
    {d : List (List α)} {fns : List String} (hdata : TableOK s.data)
    (h : mergeCore f lane_id_1 lane_id_2 point_1 point_2 point_1_type
      point_2_type s = some (d, fns)) : TableOK d := by
  unfold mergeCore at h
  split at h
  · cases h
  · split at h
    · rename_i p1local _p2local hf1 hf2
      split at h
      · cases h
      · rename_i lane2Piece horient
        split at h
        · cases h
        · rename_i merged hset
          split at h
          · cases h
          · rename_i yawed hyaw
            split at h
            · cases h
            · rename_i yawed2 hfix
              split at h
              · cases h
              · rename_i finalMerged hren
                have hw2 : ∀ r ∈ lane2Piece, r.length = 6 := by
                  intro r hr
                  unfold orientPiece at horient
                  split at horient
                  · cases horient
                    exact (hdata r (laneSorted_mem hr)).1
                  · split at horient
                    · cases horient
                      exact (hdata r (laneSorted_mem hr)).1
                    · split at horient
                      · cases horient
                        exact (hdata r (laneSorted_mem
                          (List.mem_reverse.mp hr))).1
                      · split at horient
                        · cases horient
                          exact (hdata r (laneSorted_mem
                            (List.mem_reverse.mp hr))).1
                        · cases horient
                have hwp : ∀ r ∈ ((if point_1_type = "end" then
                      (laneSorted s.data ((lane_id_1 : ℤ) : α)).take
                        (p1local + 1)
                    else (laneSorted s.data ((lane_id_1 : ℤ) : α)).drop
                        p1local) ++ lane2Piece), r.length = 6 := by
                  intro r hr
                  rcases List.mem_append.mp hr with h1 | h1
                  · split at h1
                    · exact (hdata r (laneSorted_mem
                        (List.mem_of_mem_take h1))).1
                    · exact (hdata r (laneSorted_mem
                        (List.mem_of_mem_drop h1))).1
                  · exact hw2 r h1
                have hwm := setLastAll?_len6 hwp hset
                have hwy := yawPass_len6 hwm hyaw
                have hwy2 := fixLastYaw_len6 hwy hfix
                have hfin : TableOK finalMerged := by
                  intro r' hr'
                  obtain ⟨⟨q, hq, hlen⟩, hcols⟩ := renumber?_shape hren r' hr'
                  exact ⟨by rw [hlen]; exact hwy2 q hq, hcols⟩
                cases h
                intro r hr
                unfold assembleData at hr
                split at hr
                · rcases List.mem_append.mp hr with h1 | h1
                  · exact hfin r h1
                  · exact hdata r (List.mem_of_mem_filter h1)
                · exact hfin r hr
    · cases h

theorem StateInv_merge (f : α → α → α)
    (lane_id_1 lane_id_2 point_1 point_2 : ℤ)
    (point_1_type point_2_type : String) (s : DataManager α)
    (h : StateInv s) :
    StateInv (merge_lanes f lane_id_1 lane_id_2 point_1 point_2 point_1_type
      point_2_type s).1 := by
  have h6or := h
  rcases h6or with ⟨h6, hdata, -, -⟩ | ⟨h0, hpool⟩
  · unfold merge_lanes
    split
    · exact h
    · split
      · exact h
      · rename_i d fns hcore
        exact StateInv_commit h h6 (mergeCore_TableOK hdata hcore)
  · rw [merge_lanes_eq_of_nil f lane_id_1 lane_id_2 point_1 point_2
      point_1_type point_2_type s hpool.1]
    exact h

theorem StateInv_clear (s : DataManager α) (h : StateInv s) :
    StateInv (clear_data s).1 := by
  rcases h with ⟨h6, -, -, -⟩ | ⟨h0, -⟩
  · left
    refine ⟨h6, ?_, ?_, ?_⟩
    · intro r hr
      cases hr
    · intro t ht
      rw [List.mem_singleton.mp ht]
      intro r hr
      cases hr
    · intro t ht
      cases ht
  · right
    refine ⟨h0, rfl, ?_, ?_⟩
    · intro t ht
      exact List.mem_singleton.mp ht
    · intro t ht
      cases ht

theorem StateInv_undo (s : DataManager α) (h : StateInv s) :
    StateInv (undo s).1 := by
  unfold undo
  split
  · exact h
  · rename_i hlen
    have hne : s.history ≠ [] := by
      intro h0
      rw [h0] at hlen
      simp at hlen
    have hlen2 : 2 ≤ s.history.length := by omega
    have hne' : s.history.dropLast ≠ [] := by
      intro h0
      have h1 := congrArg List.length h0
      rw [List.length_dropLast] at h1
      simp at h1
      omega
    rcases h with ⟨h6, hdata, hhist, hredo⟩ | ⟨h0, hd, hh, hrs⟩
    · left
      refine ⟨h6, ?_, ?_, ?_⟩
      · exact hhist _ ((List.dropLast_sublist _).mem
          (getLastD_mem _ [] hne'))
      · intro t ht
        exact hhist t ((List.dropLast_sublist _).mem ht)
      · intro t ht
        rcases List.mem_append.mp ht with h1 | h1
        · exact hredo t h1
        · rw [List.mem_singleton.mp h1]
          exact hhist _ (getLastD_mem _ [] hne)
    · right
      refine ⟨h0, ?_, ?_, ?_⟩
      · exact hh _ ((List.dropLast_sublist _).mem (getLastD_mem _ [] hne'))
      · intro t ht
        exact hh t ((List.dropLast_sublist _).mem ht)
      · intro t ht
        rcases List.mem_append.mp ht with h1 | h1
        · exact hrs t h1
        · rw [List.mem_singleton.mp h1]
          exact hh _ (getLastD_mem _ [] hne)

theorem StateInv_redo (s : DataManager α) (h : StateInv s) :
    StateInv (redo s).1 := by
  unfold redo
  split
  · exact h
  · rename_i hne
    rcases h with ⟨h6, hdata, hhist, hredo⟩ | ⟨h0, hd, hh, hrs⟩
    · left
      refine ⟨h6, ?_, ?_, ?_⟩
      · exact hredo _ (getLastD_mem _ [] hne)
      · intro t ht
        rcases List.mem_append.mp ht with h1 | h1
        · exact hhist t h1
        · rw [List.mem_singleton.mp h1]
          exact hredo _ (getLastD_mem _ [] hne)
      · intro t ht
        exact hredo t ((List.dropLast_sublist _).mem ht)
    · right
      refine ⟨h0, ?_, ?_, ?_⟩
      · exact hrs _ (getLastD_mem _ [] hne)
      · intro t ht
        rcases List.mem_append.mp ht with h1 | h1
        · exact hh t h1
        · rw [List.mem_singleton.mp h1]
          exact hrs _ (getLastD_mem _ [] hne)
      · intro t ht
        exact hrs t ((List.dropLast_sublist _).mem ht)

theorem StateInv_applySurf (f : α → α → α) (op : SurfOp α)
    (s : DataManager α) (h : StateInv s) : StateInv (applySurf f op s).1 := by
  cases op with
  | edit op =>
    cases op with
    | addPoint x y l => exact StateInv_add x y l s h
    | deletePoints idxs => exact StateInv_delete idxs s h
    | changeIds idxs v => exact StateInv_change idxs v s h
    | removeAbove i l => exact StateInv_above i l s h
    | removeBelow i l => exact StateInv_below i l s h
    | mergeLanes l1 l2 p1 p2 t1 t2 =>
      exact StateInv_merge f l1 l2 p1 p2 t1 t2 s h
  | clearOp => exact StateInv_clear s h
  | undoOp => exact StateInv_undo s h
  | redoOp => exact StateInv_redo s h

theorem coerceRow_length (r : List α) : (coerceRow r).length = r.length := by
  unfold coerceRow
  simp

theorem mkDataManager_StateInv {d : List (List α)} {fns : List String}
    {s0 : DataManager α} (h : mkDataManager d fns = some s0) :
    StateInv s0 := by
  unfold mkDataManager at h
  split at h
  · cases h
    right
    refine ⟨rfl, rfl, ?_, ?_⟩
    · intro t ht
      exact List.mem_singleton.mp ht
    · intro t ht
      cases ht
  · split at h
    · rename_i hlen
      simp only [] at h
      split at h
      · rename_i hcols
        cases h
        left
        refine ⟨rfl, ?_, ?_, fun t ht => by cases ht⟩
        · intro r hr
          obtain ⟨q, hq, hrq⟩ := List.mem_map.mp hr
          refine ⟨?_, hcols r hr⟩
          rw [← hrq, coerceRow_length]
          exact hlen q hq
        · intro t ht
          rw [List.mem_singleton.mp ht]
          intro r hr
          obtain ⟨q, hq, hrq⟩ := List.mem_map.mp hr
          refine ⟨?_, hcols r hr⟩
          rw [← hrq, coerceRow_length]
          exact hlen q hq
      · cases h
    · cases h

theorem reaches_StateInv {f : α → α → α} {d : List (List α)}
    {fns : List String} {s0 s : DataManager α}
    (h0 : mkDataManager d fns = some s0) (hr : Reaches f s0 s) :
    StateInv s := by
  induction hr with
  | start => exact mkDataManager_StateInv h0
  | step op _ ih => exact StateInv_applySurf f op _ ih

/-! ### C2: reachable tables have `frame_idx == index` and 6 columns -/

/-- C2: in every state reachable from a validly constructed engine through
the operation surface (add-point, delete-points, change-ids,
remove-points-above, remove-points-below, merge-lanes, clear, undo, redo),
every row of the table satisfies `frame_idx == index` (columns 3 and 4
agree), and the table either is the canonical empty state or consists of
rows of exactly 6 columns. -/
theorem reachable_frame_eq_index_and_width (f : α → α → α)
    (d0 : List (List α)) (fns : List String) (s0 s : DataManager α)
    (h0 : mkDataManager d0 fns = some s0) (hr : Reaches f s0 s) :
    (∀ r ∈ s.data, getCol r 3 = getCol r 4) ∧
    (s.data = [] ∨ ∀ r ∈ s.data, r.length = 6) := by
  rcases reaches_StateInv h0 hr with ⟨-, hdata, -, -⟩ | ⟨-, hd, -, -⟩
  · exact ⟨fun r hr' => (hdata r hr').2, Or.inr fun r hr' => (hdata r hr').1⟩
  · rw [hd]
    refine ⟨?_, Or.inl rfl⟩
    intro r hr'
    cases hr'

theorem reachable_frame_eq_index_and_width_witness :
    (∀ r ∈ (⟨[[0, 0, 0, 0, 0, 1]], [], 6, [[[0, 0, 0, 0, 0, 1]]], [], 0⟩ :
        DataManager ℤ).data, getCol r 3 = getCol r 4) ∧
    ((⟨[[0, 0, 0, 0, 0, 1]], [], 6, [[[0, 0, 0, 0, 0, 1]]], [], 0⟩ :
        DataManager ℤ).data = [] ∨
      ∀ r ∈ (⟨[[0, 0, 0, 0, 0, 1]], [], 6, [[[0, 0, 0, 0, 0, 1]]], [], 0⟩ :
        DataManager ℤ).data, r.length = 6) :=
  reachable_frame_eq_index_and_width (fun _ _ => (0 : ℤ)) [[0, 0, 0, 0, 0, 1]]
    [] _ _ (by decide) Reaches.start

/-! ### C10: an engine constructed empty can never accept a point -/

/-- C10: for an engine constructed from an empty initial table
(`total_cols = 0`), in every reachable state the table is still empty and
any `add_point` call fails — the width-0 record row rejects the very first
field assignment, the failure is caught at the operation boundary, and the
state (table, history, redo, backup count) is returned unchanged. -/
theorem empty_engine_add_point_always_fails (f : α → α → α)
    (d0 : List (List α)) (fns : List String) (s0 s : DataManager α)
    (h0 : mkDataManager d0 fns = some s0) (he : npSize d0 = 0)
    (hr : Reaches f s0 s) (x y : α) (lane_id : ℤ) :
    s.data = [] ∧ add_point x y lane_id s = (s, false) := by
  have h1 : s0.total_cols = 0 := by
    unfold mkDataManager at h0
    rw [if_pos he] at h0
    cases h0
    rfl
  have h2 : s.total_cols = 0 := by
    rw [reaches_total_cols hr, h1]
  refine ⟨?_, add_point_eq_of_zero x y lane_id s h2⟩
  rcases reaches_StateInv h0 hr with ⟨h6, -, -, -⟩ | ⟨-, hd, -, -⟩
  · rw [h2] at h6
    cases h6
  · exact hd

theorem empty_engine_add_point_always_fails_witness :
    (⟨[], ["a"], 0, [[]], [], 0⟩ : DataManager ℤ).data = [] ∧
    add_point (7 : ℤ) 8 9 (⟨[], ["a"], 0, [[]], [], 0⟩ : DataManager ℤ) =
      ((⟨[], ["a"], 0, [[]], [], 0⟩ : DataManager ℤ), false) :=
  empty_engine_add_point_always_fails (fun _ _ => (0 : ℤ)) [] ["a"] _ _
    (by decide) (by decide) Reaches.start 7 8 9

/-! ### C3: per-lane index contiguity after `add_point` -/

/-- The multiset of `index`-column values of a lane's rows (in global row
order). -/
def laneIdxList (t : List (List α)) (lv : α) : List α :=
  (t.filter (fun r => decide (laneOf r = lv))).map (fun r => getCol r 4)

/-- Invariant I3 for one lane: its `index` values are exactly
`0 .. count-1`, no gaps, no duplicates. -/
def LaneContig (t : List (List α)) (lv : α) : Prop :=
  (laneIdxList t lv).Perm
    ((List.range (laneIdxList t lv).length).map (fun j => ((j : ℕ) : α)))

instance permDecidable {β : Type} [DecidableEq β] (l₁ l₂ : List β) :
    Decidable (l₁.Perm l₂) :=
  decidable_of_iff (l₁.isPerm l₂ = true) (by rw [List.isPerm_iff])

instance laneContigDecidable (t : List (List α)) (lv : α) :
    Decidable (LaneContig t lv) :=
  permDecidable _ _

/-- Two-lane state used to refute C3: lane 1 and lane 2 each hold one point
of index 0 (both lanes contiguous). -/
def c3State : DataManager ℤ :=
  ⟨[[0, 0, 0, 0, 0, 1], [5, 5, 0, 0, 0, 2]], ["a", "b", "c"], 6,
    [[[0, 0, 0, 0, 0, 1], [5, 5, 0, 0, 0, 2]]], [], 0⟩

/-- Counterexample to C3: on a validly constructed two-lane table in which
both lanes satisfy I3, a successful `add_point` into lane 1 gives the new
point index 2 (the global row count), so lane 1's index set becomes
`{0, 2}` — a gap.  `add-point` is not exempted by the spec, so I3 fails
after a successful non-exempt operation. -/
theorem add_point_breaks_lane_contiguity :
    mkDataManager [[0, 0, 0, 0, 0, 1], [5, 5, 0, 0, 0, 2]] ["a", "b", "c"]
        = some c3State ∧
    LaneContig c3State.data ((1 : ℤ) : ℤ) ∧
    LaneContig c3State.data ((2 : ℤ) : ℤ) ∧
    (add_point (9 : ℤ) 9 1 c3State).2 = true ∧
    ¬ LaneContig (add_point (9 : ℤ) 9 1 c3State).1.data ((1 : ℤ) : ℤ) := by
  refine ⟨by decide, by decide, by decide, by decide, by decide⟩

/-- Amended C3: `add_point` numbers the new point by the global row count,
so it preserves I3 exactly in the degenerate situation in which the target
lane is the whole table.  For a 6-column engine whose rows all carry the
target lane id and whose lane is contiguous, a call to `add_point` succeeds
and the lane is again contiguous; the counterexample above shows that with
a second lane present the claim fails. -/
theorem add_point_contiguity_single_lane (x y : α) (lane_id : ℤ)
    (s : DataManager α) (h6 : s.total_cols = 6)
    (hw : ∀ r ∈ s.data, r.length = 6)
    (hall : ∀ r ∈ s.data, laneOf r = ((lane_id : ℤ) : α))
    (hI3 : LaneContig s.data ((lane_id : ℤ) : α)) :
    (add_point x y lane_id s).2 = true ∧
    LaneContig (add_point x y lane_id s).1.data ((lane_id : ℤ) : α) := by
  rw [add_point_eq_of_six x y lane_id s h6]
  have hv : vstackRow? s.data
      [x, y, 0, (s.data.length : α), (s.data.length : α), (lane_id : α)] =
      some (s.data ++
        [[x, y, 0, (s.data.length : α), (s.data.length : α), (lane_id : α)]]) := by
    unfold vstackRow?
    split
    · rename_i h0
      have hd : s.data = [] := by
        cases hdd : s.data with
        | nil => rfl
        | cons a rest =>
          rw [hdd] at h0
          unfold npSize at h0
          rw [List.map_cons, List.sum_cons] at h0
          rw [hw a (by rw [hdd]; exact List.mem_cons_self _ _)] at h0
          omega
      rw [hd]
      rfl
    · rw [if_pos]
      intro q hq
      rw [hw q hq]
      rfl
  have he : (match vstackRow? s.data
      [x, y, 0, (s.data.length : α), (s.data.length : α), (lane_id : α)] with
      | none => (s, false)
      | some d => commit s d s.file_names) =
      commit s (s.data ++
        [[x, y, 0, (s.data.length : α), (s.data.length : α), (lane_id : α)]])
        s.file_names := by
    rw [hv]
  rw [he]
  refine ⟨rfl, ?_⟩
  have hdata : (commit s (s.data ++
      [[x, y, 0, (s.data.length : α), (s.data.length : α), (lane_id : α)]])
      s.file_names).1.data = s.data ++
      [[x, y, 0, (s.data.length : α), (s.data.length : α), (lane_id : α)]] := rfl
  rw [hdata]
  have hfa : s.data.filter (fun r => decide (laneOf r = ((lane_id : ℤ) : α)))
      = s.data := by
    rw [List.filter_eq_self]
    intro r hr
    exact decide_eq_true (hall r hr)
  have hnr : laneOf
      [x, y, 0, (s.data.length : α), (s.data.length : α), (lane_id : α)] =
      ((lane_id : ℤ) : α) := rfl
  have happ : laneIdxList (s.data ++
      [[x, y, 0, (s.data.length : α), (s.data.length : α), (lane_id : α)]])
      ((lane_id : ℤ) : α) =
      laneIdxList s.data ((lane_id : ℤ) : α) ++ [(s.data.length : α)] := by
    unfold laneIdxList
    rw [List.filter_append, List.map_append]
    congr 1
    rw [List.filter_cons, if_pos (by rw [decide_eq_true_eq]; exact hnr)]
    rfl
  have hlen : (laneIdxList s.data ((lane_id : ℤ) : α)).length =
      s.data.length := by
    unfold laneIdxList
    rw [hfa, List.length_map]
  unfold LaneContig at hI3 ⊢
  rw [happ, List.length_append, hlen]
  simp only [List.length_cons, List.length_nil]
  rw [List.range_succ, List.map_append]
  rw [hlen] at hI3
  exact hI3.append (List.Perm.refl _)

theorem add_point_contiguity_single_lane_witness :
    (add_point (9 : ℤ) 9 1
      (⟨[[0, 0, 0, 0, 0, 1]], ["a"], 6, [[[0, 0, 0, 0, 0, 1]]], [], 0⟩ :
        DataManager ℤ)).2 = true ∧
    LaneContig (add_point (9 : ℤ) 9 1
      (⟨[[0, 0, 0, 0, 0, 1]], ["a"], 6, [[[0, 0, 0, 0, 0, 1]]], [], 0⟩ :
        DataManager ℤ)).1.data ((1 : ℤ) : ℤ) :=
  add_point_contiguity_single_lane 9 9 1 _ (by decide) (by decide)
    (by decide) (by decide)

/-! ### C9: history/backup effects of the truncation variants -/

theorem renumber?_isSome {t : List (List α)} :
    ∀ {j : Nat}, (∀ r ∈ t, 5 ≤ r.length) →
    ∃ t', renumber? j t = some t' := by
  induction t with
  | nil => intro j _; exact ⟨[], rfl⟩
  | cons r rest ih =>
    intro j hw
    have h5 : 5 ≤ r.length := hw r (List.mem_cons_self _ _)
    have h3 : 3 < r.length := by omega
    obtain ⟨rest', hrest⟩ :=
      ih (j := j + 1) (fun q hq => hw q (List.mem_cons_of_mem _ hq))
    refine ⟨(r.set 3 ((j : ℕ) : α)).set 4 ((j : ℕ) : α) :: rest', ?_⟩
    have e1 : setCol? r 3 ((j : ℕ) : α) = some (r.set 3 ((j : ℕ) : α)) := by
      unfold setCol?
      rw [if_pos h3]
    have e2 : setCol? (r.set 3 ((j : ℕ) : α)) 4 ((j : ℕ) : α) =
        some ((r.set 3 ((j : ℕ) : α)).set 4 ((j : ℕ) : α)) := by
      unfold setCol?
      rw [if_pos (show 4 < (r.set 3 ((j : ℕ) : α)).length by
        rw [List.length_set]; omega)]
    unfold renumber?
    simp only [e1, e2, hrest]

theorem delete_points_unchanged_of_false (indices : List ℤ)
    (s : DataManager α) (hw : ∀ r ∈ s.data, r.length = 6)
    (h : (delete_points indices s).2 = false) :
    (delete_points indices s).1 = s := by
  revert h
  unfold delete_points
  split
  · intro _; rfl
  · split
    · simp only []
      split
      · intro h
        simp [commit] at h
      · split
        · rename_i hren
          intro _
          exfalso
          have hw1 : ∀ r ∈ dropListed 0 s.data indices, 5 ≤ r.length := by
            intro r hr
            have := hw r (dropListed_mem hr)
            omega
          obtain ⟨t', ht'⟩ := renumber?_isSome hw1
          rw [ht'] at hren
          cases hren
        · intro h
          simp [commit] at h
    · intro _; rfl

theorem remove_points_above_unchanged_of_false (index lane_id : ℤ)
    (s : DataManager α) (hw : ∀ r ∈ s.data, r.length = 6)
    (h : (remove_points_above index lane_id s).2 = false) :
    (remove_points_above index lane_id s).1 = s := by
  revert h
  unfold remove_points_above
  split
  · intro _; rfl
  · simp only []
    split
    · intro _; rfl
    · split
      · intro _; rfl
      · intro h
        exact delete_points_unchanged_of_false _ s hw h

theorem remove_points_below_unchanged_of_false (index lane_id : ℤ)
    (s : DataManager α) (hw : ∀ r ∈ s.data, r.length = 6)
    (h : (remove_points_below index lane_id s).2 = false) :
    (remove_points_below index lane_id s).1 = s := by
  revert h
  unfold remove_points_below
  split
  · intro _; rfl
  · simp only []
    split
    · intro _; rfl
    · split
      · intro _; rfl
      · intro h
        exact delete_points_unchanged_of_false _ s hw h

/-- Amended C9: a truncation (either variant) that reports success — i.e.
whose delegated deletion actually removed at least one row — pushes the
post-operation table onto history, clears the redo stack, and triggers the
Durability Scheduler.  But a truncation that removes zero rows (in
particular remove-points-above at the lane's first point in index-sorted
order) is a silent no-op: the delegate `delete_points` returns early on the
empty removal list, so nothing is pushed, the redo stack is not cleared,
and the Scheduler is not triggered. -/
theorem truncation_history_effects (index lane_id : ℤ) (s : DataManager α)
    (hw : ∀ r ∈ s.data, r.length = 6) :
    ((remove_points_above index lane_id s).2 = true →
      (remove_points_above index lane_id s).1.history =
        s.history ++ [(remove_points_above index lane_id s).1.data] ∧
      (remove_points_above index lane_id s).1.redo_stack = [] ∧
      (remove_points_above index lane_id s).1.backups = s.backups + 1) ∧
    ((remove_points_above index lane_id s).2 = false →
      (remove_points_above index lane_id s).1 = s) ∧
    ((remove_points_below index lane_id s).2 = true →
      (remove_points_below index lane_id s).1.history =
        s.history ++ [(remove_points_below index lane_id s).1.data] ∧
      (remove_points_below index lane_id s).1.redo_stack = [] ∧
      (remove_points_below index lane_id s).1.backups = s.backups + 1) ∧
    ((remove_points_below index lane_id s).2 = false →
      (remove_points_below index lane_id s).1 = s) := by
  refine ⟨?_, ?_, ?_, ?_⟩
  · intro h
    obtain ⟨d, hd⟩ := remove_points_above_success_shape index lane_id s h
    rw [hd]
    exact ⟨rfl, rfl, rfl⟩
  · exact remove_points_above_unchanged_of_false index lane_id s hw
  · intro h
    obtain ⟨d, hd⟩ := remove_points_below_success_shape index lane_id s h
    rw [hd]
    exact ⟨rfl, rfl, rfl⟩
  · exact remove_points_below_unchanged_of_false index lane_id s hw

/-- Two-point single-lane state used to exhibit the truncation boundary
case: indices 0 and 1 in lane 1. -/
def c9State : DataManager ℤ :=
  ⟨[[0, 0, 0, 0, 0, 1], [1, 1, 0, 1, 1, 1]], ["a", "b"], 6,
    [[[0, 0, 0, 0, 0, 1], [1, 1, 0, 1, 1, 1]]], [], 0⟩

/-- Counterexample to C9: remove-points-above at the lane's first point in
index-sorted order (global position 0, whose local rank is 0) removes zero
rows; the source prints a success message ("Removed 0 points ...") but the
delegated deletion is an early-return no-op, so — contrary to the claim —
nothing is pushed onto history and the Durability Scheduler is not
triggered: the state is exactly unchanged. -/
theorem remove_points_above_boundary_no_push :
    mkDataManager [[0, 0, 0, 0, 0, 1], [1, 1, 0, 1, 1, 1]] ["a", "b"]
        = some c9State ∧
    remove_points_above 0 1 c9State = (c9State, false) := by
  refine ⟨by decide, by decide⟩

theorem truncation_history_effects_witness :
    (remove_points_above 1 1 c9State).2 = true ∧
    ((remove_points_above 1 1 c9State).1.history =
      c9State.history ++ [(remove_points_above 1 1 c9State).1.data] ∧
    (remove_points_above 1 1 c9State).1.redo_stack = [] ∧
    (remove_points_above 1 1 c9State).1.backups = c9State.backups + 1) :=
  ⟨by decide, (truncation_history_effects 1 1 c9State (by decide)).1 (by decide)⟩

/-! ### C5: the delete-points contract -/

theorem table_nil_of_size_zero {t : List (List α)}
    (hw : ∀ r ∈ t, r.length = 6) (h : npSize t = 0) : t = [] := by
  cases ht : t with
  | nil => rfl
  | cons a rest =>
    rw [ht] at h hw
    unfold npSize at h
    rw [List.map_cons, List.sum_cons, hw a (List.mem_cons_self _ _)] at h
    omega

theorem dropListed_eq {t : List (List α)} {idxs : List ℤ} :
    ∀ j, dropListed j t idxs =
      ((List.enumFrom j t).filter
        (fun q => decide (¬ ((q.1 : ℤ) ∈ idxs)))).map Prod.snd := by
  induction t with
  | nil => intro j; rfl
  | cons r rest ih =>
    intro j
    unfold dropListed
    have he : List.enumFrom j (r :: rest) =
        (j, r) :: List.enumFrom (j + 1) rest := rfl
    rw [he, List.filter_cons]
    by_cases hm : ((j : ℕ) : ℤ) ∈ idxs
    · rw [if_pos hm, if_neg (by simp [hm])]
      exact ih (j + 1)
    · rw [if_neg hm, if_pos (by simp [hm])]
      rw [List.map_cons, ih (j + 1)]

theorem renumber?_length {t t' : List (List α)} :
    ∀ {j : Nat}, renumber? j t = some t' → t'.length = t.length := by
  induction t generalizing t' with
  | nil =>
    intro j h
    unfold renumber? at h
    cases h
    rfl
  | cons r rest ih =>
    intro j h
    obtain ⟨r1, r2, rest', h1, h2, h3, h4⟩ := renumber?_cons_eq_some h
    subst h4
    simp [ih h3]

theorem renumber?_getElem? {t t' : List (List α)} :
    ∀ {j : Nat}, renumber? j t = some t' → ∀ p : ℕ,
      t'[p]? = (t[p]?).map
        (fun r => (r.set 3 ((j + p : ℕ) : α)).set 4 ((j + p : ℕ) : α)) := by
  induction t generalizing t' with
  | nil =>
    intro j h p
    unfold renumber? at h
    cases h
    simp
  | cons r rest ih =>
    intro j h p
    obtain ⟨r1, r2, rest', h1, h2, h3, h4⟩ := renumber?_cons_eq_some h
    obtain ⟨hr1, -⟩ := setCol?_eq_some h1
    obtain ⟨hr2, -⟩ := setCol?_eq_some h2
    subst h4
    subst hr2
    subst hr1
    cases p with
    | zero => simp
    | succ p =>
      have hih := ih h3 p
      have harr : j + 1 + p = j + (p + 1) := by omega
      rw [harr] at hih
      simpa using hih

/-- C5: `delete_points` with an empty collection is a no-op (whole state
unchanged, failure flag); with any position outside `[0, row_count)` the
whole call is rejected with the state unchanged; otherwise it succeeds,
keeps exactly the rows whose global position was not named (in order), and
renumbers every surviving row's `index`/`frame_idx` (columns 3 and 4) to
its new global row position `0 .. N-k-1` — the empty remainder being the
canonical zero-row table. -/
theorem delete_points_contract (indices : List ℤ) (s : DataManager α)
    (hw : ∀ r ∈ s.data, r.length = 6) :
    (indices = [] → delete_points indices s = (s, false)) ∧
    ((∃ i ∈ indices, i < 0 ∨ (s.data.length : ℤ) ≤ i) →
      delete_points indices s = (s, false)) ∧
    (indices ≠ [] → (∀ i ∈ indices, 0 ≤ i ∧ i < (s.data.length : ℤ)) →
      (delete_points indices s).2 = true ∧
      (delete_points indices s).1.data.length =
        (((s.data.enum).filter
          (fun q => decide (¬ ((q.1 : ℤ) ∈ indices)))).map Prod.snd).length ∧
      (∀ p : ℕ, ((delete_points indices s).1.data)[p]? =
        ((((s.data.enum).filter
          (fun q => decide (¬ ((q.1 : ℤ) ∈ indices)))).map Prod.snd)[p]?).map
          (fun r => (r.set 3 ((p : ℕ) : α)).set 4 ((p : ℕ) : α))) ∧
      (∀ p : ℕ, p < (delete_points indices s).1.data.length →
        getCol (((delete_points indices s).1.data).getD p []) 3
          = ((p : ℕ) : α) ∧
        getCol (((delete_points indices s).1.data).getD p []) 4
          = ((p : ℕ) : α))) := by
  refine ⟨?_, ?_, ?_⟩
  · intro h
    subst h
    rfl
  · intro hb
    obtain ⟨i, hi, hc⟩ := hb
    have hne : indices ≠ [] := by
      intro h0
      rw [h0] at hi
      cases hi
    have hnot : ¬ ∀ i ∈ indices, 0 ≤ i ∧ i < (s.data.length : ℤ) := by
      intro hall
      have := hall i hi
      omega
    unfold delete_points
    rw [if_neg hne, if_neg hnot]
  · intro hne hall
    unfold delete_points
    rw [if_neg hne, if_pos hall]
    simp only []
    rw [dropListed_eq 0]
    have hEq : List.enumFrom 0 s.data = s.data.enum := rfl
    rw [hEq]
    have hK6 : ∀ r ∈ ((s.data.enum.filter
        (fun q => decide (¬ ((q.1 : ℤ) ∈ indices)))).map Prod.snd),
        r.length = 6 := by
      intro r hr
      rw [← hEq, ← dropListed_eq 0] at hr
      exact hw r (dropListed_mem hr)
    by_cases hz : npSize ((s.data.enum.filter
        (fun q => decide (¬ ((q.1 : ℤ) ∈ indices)))).map Prod.snd) = 0
    · rw [if_pos hz]
      have hKnil := table_nil_of_size_zero hK6 hz
      refine ⟨rfl, ?_, ?_, ?_⟩
      · rw [hKnil]
        rfl
      · intro p
        rw [hKnil]
        simp [commit]
      · intro p hp
        exfalso
        simp [commit] at hp
    · rw [if_neg hz]
      have hex : ∃ t', renumber? 0 ((s.data.enum.filter
          (fun q => decide (¬ ((q.1 : ℤ) ∈ indices)))).map Prod.snd)
            = some t' :=
        renumber?_isSome (fun r hr => by have := hK6 r hr; omega)
      obtain ⟨t', ht'⟩ := hex
      simp only [ht']
      have hlen := renumber?_length ht'
      have hget := renumber?_getElem? ht'
      refine ⟨rfl, hlen, ?_, ?_⟩
      · intro p
        have h2 := hget p
        simpa [Nat.zero_add] using h2
      · intro p hp
        have hcd : (commit s t' s.file_names).1.data = t' := rfl
        rw [hcd]
        have hp2 : p < t'.length := hp
        have hp' : p <
            ((s.data.enum.filter
              (fun q => decide (¬ ((q.1 : ℤ) ∈ indices)))).map Prod.snd).length := by
          rw [← hlen]
          exact hp2
        have h2 := hget p
        rw [List.getElem?_eq_getElem hp'] at h2
        have hKp6 : (((s.data.enum.filter
            (fun q => decide (¬ ((q.1 : ℤ) ∈ indices)))).map
              Prod.snd)[p]).length = 6 :=
          hK6 _ (List.getElem_mem hp')
        have hgd : (t'.getD p []) =
            ((((s.data.enum.filter
              (fun q => decide (¬ ((q.1 : ℤ) ∈ indices)))).map
                Prod.snd)[p]).set 3 ((0 + p : ℕ) : α)).set 4
                  ((0 + p : ℕ) : α) := by
          rw [List.getD_eq_getElem?_getD, h2]
          rfl
        constructor
        · rw [hgd, getCol_set_ne (by omega), getCol_set_self (by omega)]
          norm_num
        · rw [hgd, getCol_set_self (by rw [List.length_set]; omega)]
          norm_num

/-- Three-point single-lane state used for the delete witness. -/
def c5State : DataManager ℤ :=
  ⟨[[0, 0, 0, 0, 0, 1], [1, 1, 0, 1, 1, 1], [2, 2, 0, 2, 2, 1]], ["a", "b"],
    6, [[[0, 0, 0, 0, 0, 1], [1, 1, 0, 1, 1, 1], [2, 2, 0, 2, 2, 1]]], [], 0⟩

theorem delete_points_contract_witness :
    (delete_points [0, 2] c5State).2 = true ∧
    (delete_points [0, 2] c5State).1.data.length =
      (((c5State.data.enum).filter
        (fun q => decide (¬ ((q.1 : ℤ) ∈ ([0, 2] : List ℤ))))).map
          Prod.snd).length :=
  ⟨((delete_points_contract [0, 2] c5State (by decide)).2.2 (by decide)
      (by decide)).1,
    ((delete_points_contract [0, 2] c5State (by decide)).2.2 (by decide)
      (by decide)).2.1⟩

/-! ### C4: the merge determinism example, with real yaw values -/

theorem arctan2_zero_one : arctan2 0 1 = 0 := by
  unfold arctan2
  rw [if_pos (by norm_num : (0 : ℝ) < 1)]
  norm_num [Real.arctan_zero]

theorem arctan2_one_zero : arctan2 1 0 = Real.pi / 2 := by
  unfold arctan2
  norm_num

/-- The table of §8's merge example: lane 1 = P0(0,0), P1(1,0), P2(2,0)
with indices 0,1,2; lane 2 = Q0(2,1), Q1(2,2) with indices 0,1; stored in
that global order. -/
def c4Table : List (List ℝ) :=
  [[0, 0, 0, 0, 0, 1], [1, 0, 0, 1, 1, 1], [2, 0, 0, 2, 2, 1],
   [2, 1, 0, 0, 0, 2], [2, 2, 0, 1, 1, 2]]

def c4State : DataManager ℝ :=
  ⟨c4Table, ["l0", "l1", "l2"], 6, [c4Table], [], 0⟩

/-- C4: merging lane 2 into lane 1 with `point_1` = the global position of
P2 (2) designated "end" and `point_2` = the global position of Q0 (3)
designated "start" succeeds and yields the 5-point sequence
`[P0, P1, P2, Q0, Q1]`, every row relabeled to lane 1, `index`/`frame_idx`
equal to `0..4` in order, yaw at row 0 equal to `arctan2 0 1 = 0` and yaw
at rows 2-4 (in particular row 3, the P2→Q0 step) equal to
`arctan2 1 0 = π/2`. -/
theorem merge_lanes_example_yaw :
    (merge_lanes arctan2 1 2 2 3 "end" "start" c4State).2 = true ∧
    (merge_lanes arctan2 1 2 2 3 "end" "start" c4State).1.data =
      [[0, 0, 0, 0, 0, 1],
       [1, 0, 0, 1, 1, 1],
       [2, 0, Real.pi / 2, 2, 2, 1],
       [2, 1, Real.pi / 2, 3, 3, 1],
       [2, 2, Real.pi / 2, 4, 4, 1]] := by
  have h1 : lanePositions c4State.data ((1 : ℤ) : ℝ) = [0, 1, 2] := by
    norm_num [lanePositions, laneOf, c4State, c4Table, List.filter, List.range,
      List.range_succ]
  have h2 : lanePositions c4State.data ((2 : ℤ) : ℝ) = [3, 4] := by
    norm_num [lanePositions, laneOf, c4State, c4Table, List.filter, List.range,
      List.range_succ]
  have h3 : laneSorted c4State.data ((1 : ℤ) : ℝ) =
      [[0, 0, 0, 0, 0, 1], [1, 0, 0, 1, 1, 1], [2, 0, 0, 2, 2, 1]] := by
    norm_num [laneSorted, lanePositions, laneOf, c4State, c4Table, List.filter,
      List.range, List.range_succ, sortRowsBy, insertRowBy, getCol]
  have h4 : laneSorted c4State.data ((2 : ℤ) : ℝ) =
      [[2, 1, 0, 0, 0, 2], [2, 2, 0, 1, 1, 2]] := by
    norm_num [laneSorted, lanePositions, laneOf, c4State, c4Table, List.filter,
      List.range, List.range_succ, sortRowsBy, insertRowBy, getCol]
  have hother : otherLanes c4State.data ((1 : ℤ) : ℝ) ((2 : ℤ) : ℝ) = [] := by
    norm_num [otherLanes, laneOf, c4State, c4Table, List.filter]
  unfold merge_lanes
  rw [if_neg (by decide : ¬ npSize c4State.data = 0)]
  unfold mergeCore
  rw [h1, h2, h3, h4, hother]
  rw [if_neg (show ¬ (([0, 1, 2] : List ℕ) = [] ∨ ([3, 4] : List ℕ) = [])
    by decide)]
  norm_num [orientPiece, setLastAll?, setLast?, yawPass, setCol?, fixLastYaw,
    renumber?, assembleData, npSize, commit, getCol, List.getD,
    List.getLast?, List.dropLast, arctan2_zero_one, arctan2_one_zero]
